import Mathlib

/-!
Verification of the poemtok repository's specification.

This file gives a shallow embedding of the parts of the repository that the
specification's testable properties talk about:

* the per-pixel luminance-threshold recolor loops
  (`process_image` in poemtok_final.py, `process_image_to_white_text` in
  poemtok_styled_text.py, `process_image` in poemtok_image.py, and the
  three-band `process_image` in poemtok_screenshot.py);
* the page-range clamping in `PoemTok.process` (poemtok.py) and
  `PoemTokImage.convert_pdf_to_images` (poemtok_image.py);
* the ffmpeg fallback chain of poemtok_fixed.py
  (`create_video_with_overlay` / `create_video_alternative` /
  `create_video_direct`);
* the per-page collection loop of `PoemTokImage.process` (poemtok_image.py);
* the optional-OCR fallback of `PoemTok.create_text_overlay` (poemtok.py).

Images are lists of rows of pixels together with the declared PIL size.
Machine integers do not overflow in any of the embedded code (all pixel
arithmetic stays far below any word size), so plain `Nat` is used for
intensities and `Int` for the page arithmetic, and `ℚ` stands in for the
(small, exactly representable or verified-equal) floating point values that
appear in comparisons.
-/

namespace PoemTok

/-- An RGBA pixel, the 4-tuples `(r, g, b, a)` passed to `putpixel` by the
recolor loops. -/
structure RGBA where
  r : Nat
  g : Nat
  b : Nat
  a : Nat
deriving DecidableEq

/-- A PIL image: its declared size (`image.width`, `image.height`) together
with its pixel rows (row `y` lists the pixels `(x, y)` for `x = 0, 1, ...`). -/
structure Img (α : Type) where
  width : Nat
  height : Nat
  rows : List (List α)
deriving DecidableEq

/-- A well-formed (rectangular) image: PIL guarantees `rows` has exactly
`height` rows, each of length `width`. -/
def Img.Valid {α : Type} (img : Img α) : Prop :=
  img.rows.length = img.height ∧ ∀ r ∈ img.rows, r.length = img.width

instance {α : Type} [DecidableEq α] (img : Img α) : Decidable img.Valid := by
  unfold Img.Valid
  infer_instance

/-- Valid 8-bit grayscale content: every intensity lies in `[0, 255]`
(mode "L" of PIL). -/
def Img.EightBit (img : Img Nat) : Prop :=
  ∀ r ∈ img.rows, ∀ p ∈ r, p ≤ 255

instance (img : Img Nat) : Decidable img.EightBit := by
  unfold Img.EightBit
  infer_instance

/-- Embeds `image.getpixel((x, y))` on a row list; the default `d` is never
reached by the loops, which only read coordinates inside the declared size. -/
def getpix {α : Type} (rows : List (List α)) (d : α) (x y : Nat) : α :=
  (rows.getD y []).getD x d

/-- Embeds `image.putpixel((x, y), c)` on a row list (out-of-range writes do
not occur in the loops; `List.set` ignores them). -/
def putpix {α : Type} (rows : List (List α)) (x y : Nat) (c : α) : List (List α) :=
  rows.set y ((rows.getD y []).set x c)

/-- Embeds the double loop
`for y in range(height): for x in range(width): out.putpixel((x, y), f(x, y))`
shared verbatim by every recolor variant, writing into the image `init`. -/
def pixelLoop {α : Type} (w h : Nat) (f : Nat → Nat → α) (init : List (List α)) :
    List (List α) :=
  (List.range h).foldl
    (fun rows y => (List.range w).foldl (fun r x => putpix r x y (f x y)) rows)
    init

/-- The two-band loop body shared by `process_image` (poemtok_final.py, with
`threshold = 200`), `process_image_to_white_text` (poemtok_styled_text.py,
`threshold` a parameter) and `process_image` (poemtok_image.py, `200`):
`if pixel > threshold: (255, 255, 255, 255) else: (0, 0, 0, bg_alpha)`. -/
def recolorPixel (threshold bg_alpha p : Nat) : RGBA :=
  if p > threshold then ⟨255, 255, 255, 255⟩ else ⟨0, 0, 0, bg_alpha⟩

/-- The mid-band alpha `int(255 * (pixel / 255.0))` of poemtok_screenshot.py.
The Python expression is evaluated in binary floating point; for every
`p ∈ [0, 255]` the double computation `255 * (p / 255.0)` yields exactly `p`
(checked exhaustively), so the exact arithmetic below is faithful on valid
8-bit input, where it also evaluates to `p`. -/
def midAlpha (p : Nat) : Nat := 255 * p / 255

/-- The three-band loop body of `process_image` (poemtok_screenshot.py,
lines 88-98): bright pixels (`> 200`) become opaque white, mid tones
(`> 100`) become white with alpha `int(255 * (pixel / 255.0))`, and dark
pixels become black at the background alpha. -/
def recolorPixel3 (bg_alpha p : Nat) : RGBA :=
  if p > 200 then ⟨255, 255, 255, 255⟩
  else if p > 100 then ⟨255, 255, 255, midAlpha p⟩
  else ⟨0, 0, 0, bg_alpha⟩

/-- Embeds the common recolor skeleton: create
`Image.new("RGBA", src.size, (0, 0, 0, 0))`, then run the double loop
writing `rule(src.getpixel((x, y)))` at every coordinate of the declared
size. The `rule` argument is the loop body, which is the only part that
differs between the script variants. -/
def process_grid (rule : Nat → RGBA) (src : Img Nat) : Img RGBA :=
  { width := src.width
    height := src.height
    rows := pixelLoop src.width src.height
      (fun x y => rule (getpix src.rows 0 x y))
      (List.replicate src.height (List.replicate src.width ⟨0, 0, 0, 0⟩)) }

/-- Embeds the two-band recolor: `process_image` of poemtok_final.py
(lines 44-57, `threshold = 200`), `process_image_to_white_text` of
poemtok_styled_text.py (lines 43-56) and `process_image` of
poemtok_image.py (lines 131-145, `threshold = 200`), acting on the
grayscale intensity grid the loop reads from. -/
def process_image (threshold bg_alpha : Nat) (src : Img Nat) : Img RGBA :=
  process_grid (recolorPixel threshold bg_alpha) src

/-- Embeds the three-band recolor `process_image` of poemtok_screenshot.py
(lines 82-98). -/
def process_image_screenshot (bg_alpha : Nat) (src : Img Nat) : Img RGBA :=
  process_grid (recolorPixel3 bg_alpha) src

/-! Auxiliary lemmas: the `putpixel` double loop computes the pointwise map
of the loop body over the source grid. -/

theorem set_getD_self {α : Type} :
    ∀ (l : List α) (n : Nat) (d : α), l.set n (l.getD n d) = l := by
  intro l
  induction l with
  | nil => intro n d; rfl
  | cons a t ih =>
    intro n d
    cases n with
    | zero => simp [List.getD]
    | succ m => simpa [List.getD] using congrArg (a :: ·) (ih m d)

theorem getD_set_self {α : Type} :
    ∀ (l : List α) (n : Nat) (c d : α), n < l.length → (l.set n c).getD n d = c := by
  intro l
  induction l with
  | nil => intro n c d h; exact absurd h (by simp)
  | cons a t ih =>
    intro n c d h
    cases n with
    | zero => simp [List.getD]
    | succ m =>
      have hm : m < t.length := by simpa using h
      simpa [List.getD] using ih m c d hm

theorem foldl_set_range {α : Type} (f : Nat → α) :
    ∀ (n : Nat) (l : List α), n ≤ l.length →
      (List.range n).foldl (fun acc x => acc.set x (f x)) l
        = (List.range n).map f ++ l.drop n := by
  intro n
  induction n with
  | zero => intro l _; simp
  | succ m ih =>
    intro l h
    have hm : m ≤ l.length := Nat.le_of_succ_le h
    have hlt : m < l.length := h
    rw [List.range_succ, List.foldl_append, ih l hm]
    simp only [List.foldl_cons, List.foldl_nil]
    rw [List.map_append, List.set_append]
    have hlen : (List.map f (List.range m)).length = m := by simp
    rw [hlen, if_neg (Nat.lt_irrefl m), Nat.sub_self]
    rw [List.drop_eq_getElem_cons hlt, List.set_cons_zero]
    simp [List.append_assoc]

theorem foldl_putpix_fixed_row {α : Type} (g : Nat → α) (y : Nat) :
    ∀ (xs : List Nat) (rows : List (List α)),
      xs.foldl (fun r x => putpix r x y (g x)) rows
        = rows.set y (xs.foldl (fun row x => row.set x (g x)) (rows.getD y [])) := by
  intro xs
  induction xs with
  | nil => intro rows; exact (set_getD_self rows y []).symm
  | cons x xs ih =>
    intro rows
    by_cases hy : y < rows.length
    · have step : putpix rows x y (g x) = rows.set y ((rows.getD y []).set x (g x)) := rfl
      calc (x :: xs).foldl (fun r x => putpix r x y (g x)) rows
          = xs.foldl (fun r x => putpix r x y (g x)) (putpix rows x y (g x)) := rfl
        _ = (putpix rows x y (g x)).set y
              (xs.foldl (fun row x => row.set x (g x)) ((putpix rows x y (g x)).getD y [])) :=
            ih _
        _ = rows.set y (xs.foldl (fun row x => row.set x (g x)) ((rows.getD y []).set x (g x))) := by
            rw [step, getD_set_self _ _ _ _ hy, List.set_set]
        _ = rows.set y ((x :: xs).foldl (fun row x => row.set x (g x)) (rows.getD y [])) := rfl
    · have hle : rows.length ≤ y := Nat.le_of_not_lt hy
      have hput : putpix rows x y (g x) = rows := List.set_eq_of_length_le hle
      have h1 : (x :: xs).foldl (fun r x => putpix r x y (g x)) rows
          = xs.foldl (fun r x => putpix r x y (g x)) rows := by
        rw [List.foldl_cons, hput]
      rw [h1, ih rows, List.set_eq_of_length_le hle, List.set_eq_of_length_le hle]

theorem pixelLoop_congr_rows {α : Type} (w : Nat) (f : Nat → Nat → α) :
    ∀ (ys : List Nat) (rows : List (List α)),
      (∀ r ∈ rows, r.length = w) →
      ys.foldl (fun rs y => (List.range w).foldl (fun r x => putpix r x y (f x y)) rs) rows
        = ys.foldl (fun rs y => rs.set y ((List.range w).map (fun x => f x y))) rows := by
  intro ys
  induction ys with
  | nil => intro rows _; rfl
  | cons y ys ih =>
    intro rows hrows
    simp only [List.foldl_cons]
    rw [foldl_putpix_fixed_row]
    by_cases hy : y < rows.length
    · have hrow : rows.getD y [] = rows[y] := by
        rw [List.getD_eq_getElem?_getD, List.getElem?_eq_getElem hy]
        rfl
      have hlen : (rows.getD y []).length = w := by
        rw [hrow]
        exact hrows _ (List.getElem_mem hy)
      have hfold : (List.range w).foldl (fun row x => row.set x (f x y)) (rows.getD y [])
          = (List.range w).map (fun x => f x y) := by
        rw [foldl_set_range (fun x => f x y) w _ (le_of_eq hlen.symm)]
        rw [← hlen, List.drop_length, List.append_nil]
      rw [hfold]
      exact ih _ (fun r hr => by
        rcases List.mem_or_eq_of_mem_set hr with h | h
        · exact hrows r h
        · rw [h]; simp)
    · have hle : rows.length ≤ y := Nat.le_of_not_lt hy
      rw [List.set_eq_of_length_le hle, List.set_eq_of_length_le hle]
      exact ih rows hrows

theorem pixelLoop_eq_map {α : Type} (w h : Nat) (f : Nat → Nat → α) (blank : α) :
    pixelLoop w h f (List.replicate h (List.replicate w blank))
      = (List.range h).map (fun y => (List.range w).map (fun x => f x y)) := by
  unfold pixelLoop
  rw [pixelLoop_congr_rows w f (List.range h) _ (fun r hr => by
    rw [List.eq_of_mem_replicate hr]; simp)]
  rw [foldl_set_range (fun y => (List.range w).map (fun x => f x y)) h
      (List.replicate h (List.replicate w blank)) (by simp)]
  simp

/-- Reading inside the declared bounds never falls back to the default. -/
theorem getD_eq_getElem {α : Type} (l : List α) (n : Nat) (d : α) (h : n < l.length) :
    l.getD n d = l[n] := by
  rw [List.getD_eq_getElem?_getD, List.getElem?_eq_getElem h]
  rfl

theorem getpix_eq {α : Type} (rows : List (List α)) (d : α) (x y : Nat)
    (hy : y < rows.length) (hx : x < rows[y].length) :
    getpix rows d x y = rows[y][x] := by
  unfold getpix
  rw [getD_eq_getElem rows y [] hy, getD_eq_getElem _ x d hx]

/-- The recolor skeleton is the pointwise map of its loop body over the source
grid: every coordinate of the fresh `(0, 0, 0, 0)` image is overwritten with
`rule` of the corresponding source pixel. -/
theorem process_grid_rows (rule : Nat → RGBA) (src : Img Nat) (hv : src.Valid) :
    (process_grid rule src).rows = src.rows.map (fun row => row.map rule) := by
  obtain ⟨hh, hw⟩ := hv
  show pixelLoop src.width src.height _ _ = _
  rw [pixelLoop_eq_map]
  apply List.ext_getElem
  · simp [hh]
  · intro y hy1 hy2
    have hy : y < src.rows.length := by simpa using hy2
    rw [List.getElem_map, List.getElem_map, List.getElem_range]
    have hwy : src.rows[y].length = src.width := hw _ (List.getElem_mem hy)
    apply List.ext_getElem
    · simp [hwy]
    · intro x hx1 hx2
      have hx : x < src.rows[y].length := by simpa using hx2
      rw [List.getElem_map, List.getElem_map, List.getElem_range]
      rw [getpix_eq src.rows 0 x y hy hx]

/-- Pointwise description of the recolor skeleton inside the declared size. -/
theorem getpix_process_grid (rule : Nat → RGBA) (src : Img Nat) (hv : src.Valid)
    (x y : Nat) (hx : x < src.width) (hy : y < src.height) (d : RGBA) :
    getpix (process_grid rule src).rows d x y = rule (getpix src.rows 0 x y) := by
  obtain ⟨hh, hw⟩ := hv
  have hy2 : y < src.rows.length := by rw [hh]; exact hy
  have hx2 : x < src.rows[y].length := by rw [hw _ (List.getElem_mem hy2)]; exact hx
  rw [process_grid_rows rule src ⟨hh, hw⟩]
  unfold getpix
  have hym : y < (src.rows.map (fun row => row.map rule)).length := by simpa using hy2
  rw [getD_eq_getElem _ y [] hym, List.getElem_map]
  have hxm : x < (src.rows[y].map rule).length := by simpa using hx2
  rw [getD_eq_getElem _ x d hxm, List.getElem_map]
  rw [getD_eq_getElem src.rows y [] hy2, getD_eq_getElem _ x 0 hx2]

/-- The recolor skeleton produces a well-formed image of the same declared
size as its input. -/
theorem process_grid_valid (rule : Nat → RGBA) (src : Img Nat) (hv : src.Valid) :
    (process_grid rule src).Valid := by
  obtain ⟨hh, hw⟩ := hv
  constructor
  · rw [process_grid_rows rule src ⟨hh, hw⟩]
    simpa using hh
  · intro r hr
    rw [process_grid_rows rule src ⟨hh, hw⟩] at hr
    rcases List.mem_map.mp hr with ⟨row, hrow, rfl⟩
    simpa using hw row hrow

theorem Img.eq_of_fields {α : Type} {a b : Img α} (hw : a.width = b.width)
    (hh : a.height = b.height) (hr : a.rows = b.rows) : a = b := by
  cases a
  cases b
  cases hw
  cases hh
  cases hr
  rfl

/-- The grayscale value PIL's `convert("L")` assigns to an RGBA pixel
(ITU-R 601-2 weights as implemented:
`(r * 19595 + g * 38470 + b * 7471 + 0x8000) >> 16`; alpha is dropped). -/
def luminance (c : RGBA) : Nat :=
  (c.r * 19595 + c.g * 38470 + c.b * 7471 + 32768) / 65536

/-- Reopening a saved recolor output and converting it to grayscale, as every
script does before its loop: pointwise luminance. -/
def to_gray (img : Img RGBA) : Img Nat :=
  { width := img.width
    height := img.height
    rows := img.rows.map (fun row => row.map luminance) }

theorem to_gray_valid (img : Img RGBA) (hv : img.Valid) : (to_gray img).Valid := by
  obtain ⟨hh, hw⟩ := hv
  constructor
  · show (img.rows.map (fun row => row.map luminance)).length = img.height
    simpa using hh
  · intro r hr
    have hr2 : r ∈ img.rows.map (fun row => row.map luminance) := hr
    rcases List.mem_map.mp hr2 with ⟨row, hrow, rfl⟩
    show (row.map luminance).length = img.width
    simpa using hw row hrow

theorem luminance_white : luminance ⟨255, 255, 255, 255⟩ = 255 := by
  norm_num [luminance]

theorem luminance_black (A : Nat) : luminance ⟨0, 0, 0, A⟩ = 0 := by
  norm_num [luminance]

theorem midAlpha_eq (p : Nat) : midAlpha p = p :=
  Nat.mul_div_cancel_left p (by norm_num)

theorem recolorPixel_luminance_fix (T A p : Nat) (hp : p ≤ 255) :
    recolorPixel T A (luminance (recolorPixel T A p)) = recolorPixel T A p := by
  unfold recolorPixel
  by_cases hc : p > T
  · rw [if_pos hc, luminance_white, if_pos (show 255 > T by omega)]
  · rw [if_neg hc, luminance_black, if_neg (show ¬ 0 > T by omega)]

/-- C1: threshold recolor contract. For every grayscale grid, threshold `T`
and background alpha `A`, every in-range pixel with intensity `I > T` maps to
`(255, 255, 255, 255)`, every pixel with `I ≤ T` maps to `(0, 0, 0, A)`, and
in particular `I = T` takes the otherwise branch because the comparison
`pixel > threshold` is strict. -/
theorem threshold_recolor_contract (T A : Nat) (src : Img Nat) (x y : Nat)
    (hv : src.Valid) (hx : x < src.width) (hy : y < src.height) :
    (getpix src.rows 0 x y > T →
        getpix (process_image T A src).rows ⟨0, 0, 0, 0⟩ x y = ⟨255, 255, 255, 255⟩) ∧
    (getpix src.rows 0 x y ≤ T →
        getpix (process_image T A src).rows ⟨0, 0, 0, 0⟩ x y = ⟨0, 0, 0, A⟩) ∧
    (getpix src.rows 0 x y = T →
        getpix (process_image T A src).rows ⟨0, 0, 0, 0⟩ x y = ⟨0, 0, 0, A⟩) := by
  have h : getpix (process_image T A src).rows ⟨0, 0, 0, 0⟩ x y
      = recolorPixel T A (getpix src.rows 0 x y) :=
    getpix_process_grid (recolorPixel T A) src hv x y hx hy ⟨0, 0, 0, 0⟩
  rw [h]
  unfold recolorPixel
  exact ⟨fun hgt => by rw [if_pos hgt],
    fun hle => by rw [if_neg (by omega)],
    fun heq => by rw [if_neg (by omega)]⟩

/-- Witness for C1 on a concrete 2 by 2 grid with threshold 200 and
background alpha 178: intensity 201 turns opaque white, intensity exactly
200 turns background black. -/
theorem threshold_recolor_contract_witness :
    getpix (process_image 200 178 ⟨2, 2, [[201, 200], [0, 255]]⟩).rows ⟨0, 0, 0, 0⟩ 0 0
        = ⟨255, 255, 255, 255⟩ ∧
    getpix (process_image 200 178 ⟨2, 2, [[201, 200], [0, 255]]⟩).rows ⟨0, 0, 0, 0⟩ 1 0
        = ⟨0, 0, 0, 178⟩ :=
  ⟨(threshold_recolor_contract 200 178 ⟨2, 2, [[201, 200], [0, 255]]⟩ 0 0 (by decide)
      (by decide) (by decide)).1 (by decide),
   (threshold_recolor_contract 200 178 ⟨2, 2, [[201, 200], [0, 255]]⟩ 1 0 (by decide)
      (by decide) (by decide)).2.2 (by decide)⟩

/-- C2: three-band variant of poemtok_screenshot.py with its hardcoded
threshold 200. Pixels above 200 become opaque white; pixels in the mid band
`100 < I ≤ 200` become white with alpha `int(255 * (I / 255.0)) = I`; pixels
`I ≤ 100` become `(0, 0, 0, A)`. The alpha identity relies on the float
round-trip `255 * (p / 255.0) = p`, exact for every `p ∈ [0, 255]`, whence
the 8-bit hypothesis. -/
theorem three_band_recolor_contract (A : Nat) (src : Img Nat) (x y : Nat)
    (hv : src.Valid) (h8 : src.EightBit) (hx : x < src.width) (hy : y < src.height) :
    (getpix src.rows 0 x y > 200 →
        getpix (process_image_screenshot A src).rows ⟨0, 0, 0, 0⟩ x y
          = ⟨255, 255, 255, 255⟩) ∧
    (100 < getpix src.rows 0 x y → getpix src.rows 0 x y ≤ 200 →
        getpix (process_image_screenshot A src).rows ⟨0, 0, 0, 0⟩ x y
          = ⟨255, 255, 255, getpix src.rows 0 x y⟩) ∧
    (getpix src.rows 0 x y ≤ 100 →
        getpix (process_image_screenshot A src).rows ⟨0, 0, 0, 0⟩ x y = ⟨0, 0, 0, A⟩) := by
  have h : getpix (process_image_screenshot A src).rows ⟨0, 0, 0, 0⟩ x y
      = recolorPixel3 A (getpix src.rows 0 x y) :=
    getpix_process_grid (recolorPixel3 A) src hv x y hx hy ⟨0, 0, 0, 0⟩
  rw [h]
  unfold recolorPixel3
  refine ⟨fun h1 => by rw [if_pos h1], fun h1 h2 => ?_, fun h1 => ?_⟩
  · rw [if_neg (by omega), if_pos h1, midAlpha_eq]
  · rw [if_neg (by omega), if_neg (by omega)]

/-- Witness for C2 on a concrete grid: intensity 150 lies in the mid band and
gets alpha 150; intensity 80 becomes background black. -/
theorem three_band_recolor_contract_witness :
    getpix (process_image_screenshot 204 ⟨2, 1, [[150, 80]]⟩).rows ⟨0, 0, 0, 0⟩ 0 0
        = ⟨255, 255, 255, 150⟩ ∧
    getpix (process_image_screenshot 204 ⟨2, 1, [[150, 80]]⟩).rows ⟨0, 0, 0, 0⟩ 1 0
        = ⟨0, 0, 0, 204⟩ :=
  ⟨(three_band_recolor_contract 204 ⟨2, 1, [[150, 80]]⟩ 0 0 (by decide) (by decide)
      (by decide) (by decide)).2.1 (by decide) (by decide),
   (three_band_recolor_contract 204 ⟨2, 1, [[150, 80]]⟩ 1 0 (by decide) (by decide)
      (by decide) (by decide)).2.2 (by decide)⟩

/-- C3: idempotence. Recoloring (threshold `T`, alpha `A`) the grayscale
reading of an already-recolored image with the same parameters reproduces
that recolor exactly: the recolor composed with itself (through the
grayscale conversion every script performs on its input) equals the recolor,
for every valid 8-bit input. -/
theorem recolor_idempotent (T A : Nat) (src : Img Nat)
    (hv : src.Valid) (h8 : src.EightBit) :
    process_image T A (to_gray (process_image T A src)) = process_image T A src := by
  have hv2 : (process_image T A src).Valid := process_grid_valid _ src hv
  have hv3 : (to_gray (process_image T A src)).Valid := to_gray_valid _ hv2
  refine Img.eq_of_fields rfl rfl ?_
  rw [show process_image T A (to_gray (process_image T A src))
      = process_grid (recolorPixel T A) (to_gray (process_image T A src)) from rfl]
  rw [process_grid_rows _ _ hv3]
  rw [show (to_gray (process_image T A src)).rows
      = (process_image T A src).rows.map (fun row => row.map luminance) from rfl]
  rw [show process_image T A src = process_grid (recolorPixel T A) src from rfl,
    process_grid_rows _ _ hv]
  rw [List.map_map, List.map_map]
  apply List.map_congr_left
  intro row hrow
  simp only [Function.comp_apply]
  rw [List.map_map, List.map_map]
  apply List.map_congr_left
  intro p hp
  simp only [Function.comp_apply]
  exact recolorPixel_luminance_fix T A p (h8 row hrow p hp)

/-- Witness for C3 on a concrete 1 by 2 binary-producing grid. -/
theorem recolor_idempotent_witness :
    process_image 200 178 (to_gray (process_image 200 178 ⟨2, 1, [[255, 0]]⟩))
      = process_image 200 178 ⟨2, 1, [[255, 0]]⟩ :=
  recolor_idempotent 200 178 ⟨2, 1, [[255, 0]]⟩ (by decide) (by decide)

/-- C4: pixel independence, two-run statement. Two valid inputs of identical
declared dimensions that agree at `(x, y)` produce recolor outputs that agree
at `(x, y)`: each output pixel depends only on the corresponding source
pixel. -/
theorem pixel_independence (T A : Nat) (srcA srcB : Img Nat) (x y : Nat)
    (hvA : srcA.Valid) (hvB : srcB.Valid)
    (hw : srcA.width = srcB.width) (hh : srcA.height = srcB.height)
    (hx : x < srcA.width) (hy : y < srcA.height)
    (hagree : getpix srcA.rows 0 x y = getpix srcB.rows 0 x y) :
    getpix (process_image T A srcA).rows ⟨0, 0, 0, 0⟩ x y
      = getpix (process_image T A srcB).rows ⟨0, 0, 0, 0⟩ x y := by
  have h1 : getpix (process_image T A srcA).rows ⟨0, 0, 0, 0⟩ x y
      = recolorPixel T A (getpix srcA.rows 0 x y) :=
    getpix_process_grid (recolorPixel T A) srcA hvA x y hx hy ⟨0, 0, 0, 0⟩
  have h2 : getpix (process_image T A srcB).rows ⟨0, 0, 0, 0⟩ x y
      = recolorPixel T A (getpix srcB.rows 0 x y) :=
    getpix_process_grid (recolorPixel T A) srcB hvB x y (hw ▸ hx) (hh ▸ hy) ⟨0, 0, 0, 0⟩
  rw [h1, h2, hagree]

/-- Witness for C4: two concrete grids differing everywhere except at
`(0, 0)` give the same output pixel there. -/
theorem pixel_independence_witness :
    getpix (process_image 200 178 ⟨2, 1, [[250, 0]]⟩).rows ⟨0, 0, 0, 0⟩ 0 0
      = getpix (process_image 200 178 ⟨2, 1, [[250, 255]]⟩).rows ⟨0, 0, 0, 0⟩ 0 0 :=
  pixel_independence 200 178 ⟨2, 1, [[250, 0]]⟩ ⟨2, 1, [[250, 255]]⟩ 0 0 (by decide)
    (by decide) (by decide) (by decide) (by decide) (by decide) (by decide)

/-- C5: the threshold recolor is a pure total function over valid 8-bit
input. It is a total Lean function (defined for every input, no failure
value in its type), and on every valid grid with intensities, threshold and
alpha in `[0, 255]` it produces a well-formed RGBA grid of exactly the same
declared width and height. -/
theorem recolor_pure_total (T A : Nat) (src : Img Nat)
    (hv : src.Valid) (h8 : src.EightBit) (hT : T ≤ 255) (hA : A ≤ 255) :
    (process_image T A src).width = src.width ∧
    (process_image T A src).height = src.height ∧
    (process_image T A src).Valid :=
  ⟨rfl, rfl, process_grid_valid _ src hv⟩

/-- Witness for C5 on a concrete 2 by 2 grid. -/
theorem recolor_pure_total_witness :
    (process_image 180 178 ⟨2, 2, [[0, 255], [10, 200]]⟩).width = 2 ∧
    (process_image 180 178 ⟨2, 2, [[0, 255], [10, 200]]⟩).height = 2 ∧
    (process_image 180 178 ⟨2, 2, [[0, 255], [10, 200]]⟩).Valid :=
  recolor_pure_total 180 178 ⟨2, 2, [[0, 255], [10, 200]]⟩ (by decide) (by decide)
    (by decide) (by decide)

/-- The background alpha `int(255 * bg_opacity)` computed by every recolor
variant from its `bg_opacity ∈ [0, 1]` argument (truncation toward zero,
which is the floor for the nonnegative values that occur). -/
def bg_alpha_of (bg_opacity : ℚ) : Nat := (255 * bg_opacity).floor.toNat

/-- C10: two-tone output invariant. Every in-range pixel of the recolor
output is exactly the loop rule applied to the corresponding source pixel
(so the transparent `(0, 0, 0, 0)` fill of the fresh image is overwritten at
every coordinate), and its RGB is either `(255, 255, 255)` or `(0, 0, 0)`:
white pixels carry alpha 255 (or the source intensity in the mid band of the
screenshot variant), black pixels carry alpha `int(255 * bg_opacity)`. -/
theorem two_tone_invariant (bg_opacity : ℚ) (src : Img Nat) (x y : Nat)
    (h0 : 0 ≤ bg_opacity) (h1 : bg_opacity ≤ 1)
    (hv : src.Valid) (hx : x < src.width) (hy : y < src.height) :
    (getpix (process_image 200 (bg_alpha_of bg_opacity) src).rows ⟨0, 0, 0, 0⟩ x y
        = recolorPixel 200 (bg_alpha_of bg_opacity) (getpix src.rows 0 x y)) ∧
    (getpix (process_image_screenshot (bg_alpha_of bg_opacity) src).rows ⟨0, 0, 0, 0⟩ x y
        = recolorPixel3 (bg_alpha_of bg_opacity) (getpix src.rows 0 x y)) ∧
    (getpix (process_image 200 (bg_alpha_of bg_opacity) src).rows ⟨0, 0, 0, 0⟩ x y
        = ⟨255, 255, 255, 255⟩ ∨
      getpix (process_image 200 (bg_alpha_of bg_opacity) src).rows ⟨0, 0, 0, 0⟩ x y
        = ⟨0, 0, 0, bg_alpha_of bg_opacity⟩) ∧
    (getpix (process_image_screenshot (bg_alpha_of bg_opacity) src).rows ⟨0, 0, 0, 0⟩ x y
        = ⟨255, 255, 255, 255⟩ ∨
      getpix (process_image_screenshot (bg_alpha_of bg_opacity) src).rows ⟨0, 0, 0, 0⟩ x y
        = ⟨255, 255, 255, getpix src.rows 0 x y⟩ ∨
      getpix (process_image_screenshot (bg_alpha_of bg_opacity) src).rows ⟨0, 0, 0, 0⟩ x y
        = ⟨0, 0, 0, bg_alpha_of bg_opacity⟩) := by
  have h2 : getpix (process_image 200 (bg_alpha_of bg_opacity) src).rows ⟨0, 0, 0, 0⟩ x y
      = recolorPixel 200 (bg_alpha_of bg_opacity) (getpix src.rows 0 x y) :=
    getpix_process_grid _ src hv x y hx hy ⟨0, 0, 0, 0⟩
  have h3 : getpix (process_image_screenshot (bg_alpha_of bg_opacity) src).rows
        ⟨0, 0, 0, 0⟩ x y
      = recolorPixel3 (bg_alpha_of bg_opacity) (getpix src.rows 0 x y) :=
    getpix_process_grid _ src hv x y hx hy ⟨0, 0, 0, 0⟩
  refine ⟨h2, h3, ?_, ?_⟩
  · rw [h2]
    unfold recolorPixel
    by_cases hc : getpix src.rows 0 x y > 200
    · left
      rw [if_pos hc]
    · right
      rw [if_neg hc]
  · rw [h3]
    generalize getpix src.rows 0 x y = p
    unfold recolorPixel3
    by_cases hc : p > 200
    · left
      rw [if_pos hc]
    · by_cases hc2 : p > 100
      · right
        left
        rw [if_neg hc, if_pos hc2, midAlpha_eq]
      · right
        right
        rw [if_neg hc, if_neg hc2]

/-- Witness for C10 with `bg_opacity = 7/10` (alpha 178) on a concrete
grid. -/
theorem two_tone_invariant_witness :
    getpix (process_image 200 (bg_alpha_of (7 / 10)) ⟨1, 1, [[50]]⟩).rows
        ⟨0, 0, 0, 0⟩ 0 0
      = recolorPixel 200 (bg_alpha_of (7 / 10)) (getpix ([[50]] : List (List Nat)) 0 0 0) :=
  (two_tone_invariant (7 / 10) ⟨1, 1, [[50]]⟩ 0 0 (by norm_num) (by norm_num) (by decide)
    (by decide) (by decide)).1

/-- Embeds the page-range adjustment of `PoemTok.process` (poemtok.py lines
292-295) and `PoemTokImage.convert_pdf_to_images` (poemtok_image.py lines
77-80): `start_page = max(1, start_page)` followed by
`if end_page is None or end_page > total_pages: end_page = total_pages`
(with `total_pages = len(pages)` in poemtok.py). -/
def clamp_page_range (total_pages : Nat) (start_page : Int) (end_page : Option Int) :
    Int × Int :=
  (max 1 start_page,
    match end_page with
    | none => (total_pages : Int)
    | some v => if v > (total_pages : Int) then (total_pages : Int) else v)

/-- C6: page-range clamping. A `start_page` below 1 is clamped up to 1 (and
left alone otherwise); an `end_page` of `None` or above the page count is
clamped down to the page count (and left alone otherwise); the adjusted pair
always satisfies `1 ≤ start` and `end ≤ total_pages`, and the adjustment is
a total function, so no argument combination causes a failure. -/
theorem page_range_clamping (total_pages : Nat) (start_page : Int) (end_page : Option Int) :
    (start_page < 1 → (clamp_page_range total_pages start_page end_page).1 = 1) ∧
    (1 ≤ start_page → (clamp_page_range total_pages start_page end_page).1 = start_page) ∧
    1 ≤ (clamp_page_range total_pages start_page end_page).1 ∧
    (end_page = none → (clamp_page_range total_pages start_page end_page).2 = total_pages) ∧
    (∀ v, end_page = some v → v > (total_pages : Int) →
        (clamp_page_range total_pages start_page end_page).2 = total_pages) ∧
    (∀ v, end_page = some v → v ≤ (total_pages : Int) →
        (clamp_page_range total_pages start_page end_page).2 = v) ∧
    (clamp_page_range total_pages start_page end_page).2 ≤ (total_pages : Int) := by
  obtain _ | v := end_page
  · refine ⟨fun h => ?_, fun h => ?_, ?_, fun _ => rfl, fun v hv => Option.noConfusion hv,
      fun v hv => Option.noConfusion hv, ?_⟩
    · show max 1 start_page = 1
      omega
    · show max 1 start_page = start_page
      omega
    · show 1 ≤ max 1 start_page
      omega
    · show (total_pages : Int) ≤ (total_pages : Int)
      exact le_refl _
  · refine ⟨fun h => ?_, fun h => ?_, ?_, fun hv => Option.noConfusion hv, ?_, ?_, ?_⟩
    · show max 1 start_page = 1
      omega
    · show max 1 start_page = start_page
      omega
    · show 1 ≤ max 1 start_page
      omega
    · intro w hw hgt
      cases hw
      show (if v > (total_pages : Int) then (total_pages : Int) else v) = total_pages
      rw [if_pos hgt]
    · intro w hw hle
      cases hw
      show (if v > (total_pages : Int) then (total_pages : Int) else v) = v
      rw [if_neg (by omega)]
    · show (if v > (total_pages : Int) then (total_pages : Int) else v) ≤ (total_pages : Int)
      split <;> omega

/-- Witness for C6: a 10-page document with `start_page = -3` and
`end_page = 99` clamps to the range `[1, 10]`. -/
theorem page_range_clamping_witness :
    (clamp_page_range 10 (-3) (some 99)).1 = 1 ∧
    (clamp_page_range 10 (-3) (some 99)).2 = 10 :=
  ⟨(page_range_clamping 10 (-3) (some 99)).1 (by norm_num),
    (page_range_clamping 10 (-3) (some 99)).2.2.2.2.1 99 rfl (by norm_num)⟩

/-- Outcomes of the external-tool invocations made by poemtok_fixed.py:
whether the primary ffmpeg command exits zero, whether the ffprobe duration
probe exits zero, what `float(duration_str)` yields (`none` when parsing
raises ValueError), whether both commands of the alternative method exit
zero, and whether the direct method's command exits zero. Probed durations
are modelled as rationals; the comparison with 0.1 is exact. -/
structure FfmpegEnv where
  primary_ok : Bool
  probe_ok : Bool
  probe_parse : Option ℚ
  alt_ok : Bool
  direct_ok : Bool

/-- Embeds `create_video_direct` (poemtok_fixed.py lines 151-190): the output
path on success, `None` on a caught non-zero exit. -/
def create_video_direct (env : FfmpegEnv) (output_path : String) : Option String :=
  if env.direct_ok then some output_path else none

/-- Embeds `create_video_alternative` (poemtok_fixed.py lines 82-149): the
output path when its two commands succeed, otherwise the caught error falls
through to `create_video_direct`. -/
def create_video_alternative (env : FfmpegEnv) (output_path : String) : Option String :=
  if env.alt_ok then some output_path else create_video_direct env output_path

/-- Embeds `create_video_with_overlay` (poemtok_fixed.py lines 14-80): run
the primary command, then the ffprobe duration probe; a caught non-zero exit
of either, an unparsable duration string, or a parsed duration below 0.1
routes to `create_video_alternative`; otherwise the output path is
returned. -/
def create_video_with_overlay (env : FfmpegEnv) (output_path : String) : Option String :=
  if env.primary_ok then
    if env.probe_ok then
      match env.probe_parse with
      | some d =>
          if d < 1 / 10 then create_video_alternative env output_path
          else some output_path
      | none => create_video_alternative env output_path
    else create_video_alternative env output_path
  else create_video_alternative env output_path

/-- The condition under which the primary level hands over to the fallback
chain: a non-zero exit of the primary command or of the probe, an unparsable
duration, or a near-zero (below 0.1) probed duration. -/
def falls_back (env : FfmpegEnv) : Bool :=
  !env.primary_ok || !env.probe_ok ||
    match env.probe_parse with
    | some d => decide (d < 1 / 10)
    | none => true

/-- C7: fallback chain. When the primary invocation fails, or the duration
probe reports an unparsable or below-0.1 duration, `create_video_with_overlay`
invokes the alternative method; the alternative falls through to the direct
method on failure; every level returns the output path as soon as it
succeeds, and `None` comes back exactly when the fallback was triggered and
both remaining levels fail. -/
theorem fallback_chain (env : FfmpegEnv) (output_path : String) :
    (falls_back env = true →
        create_video_with_overlay env output_path
          = create_video_alternative env output_path) ∧
    (falls_back env = false →
        create_video_with_overlay env output_path = some output_path) ∧
    (env.alt_ok = true →
        create_video_alternative env output_path = some output_path) ∧
    (env.alt_ok = false →
        create_video_alternative env output_path = create_video_direct env output_path) ∧
    (env.direct_ok = true → create_video_direct env output_path = some output_path) ∧
    (create_video_with_overlay env output_path = none ↔
        falls_back env = true ∧ env.alt_ok = false ∧ env.direct_ok = false) := by
  obtain ⟨p, pr, pp, al, dr⟩ := env
  rcases pp with _ | d
  · cases p <;> cases pr <;> cases al <;> cases dr <;>
      simp [create_video_with_overlay, create_video_alternative, create_video_direct,
        falls_back]
  · by_cases hd : d < 1 / 10 <;>
      cases p <;> cases pr <;> cases al <;> cases dr <;>
      simp [create_video_with_overlay, create_video_alternative, create_video_direct,
        falls_back, hd]

/-- A concrete output path for the closed witnesses below. -/
def sample_output_path : String := "output/output.mp4"

/-- Witness for C7: with a failing primary command, a succeeding alternative
returns the path; the two fallback equations hold at a concrete
environment. -/
theorem fallback_chain_witness :
    create_video_with_overlay ⟨false, true, some 5, true, false⟩ sample_output_path
        = create_video_alternative ⟨false, true, some 5, true, false⟩ sample_output_path ∧
    create_video_alternative ⟨false, true, some 5, true, false⟩ sample_output_path
        = some sample_output_path :=
  ⟨(fallback_chain ⟨false, true, some 5, true, false⟩ sample_output_path).1 (by decide),
    (fallback_chain ⟨false, true, some 5, true, false⟩ sample_output_path).2.2.1 rfl⟩

/-- Embeds the per-page collection loop of `PoemTokImage.process`
(poemtok_image.py lines 214-236): for each processed page, in order, the
outcome of `create_video_with_image` is `some path` on success or `none` on
a caught non-zero ffmpeg exit, and `if result:` appends only successes
(the constructed paths are non-empty strings, so Python truthiness agrees
with `Option.isSome`). -/
def collect_videos (results : List (Option String)) : List String :=
  results.foldl
    (fun output_videos result =>
      match result with
      | some path => output_videos ++ [path]
      | none => output_videos)
    []

theorem collect_videos_go (results : List (Option String)) :
    ∀ acc : List String,
      results.foldl
        (fun output_videos result =>
          match result with
          | some path => output_videos ++ [path]
          | none => output_videos)
        acc
      = acc ++ results.filterMap id := by
  induction results with
  | nil => intro acc; simp
  | cons r rs ih =>
    intro acc
    cases r with
    | none => simpa using ih acc
    | some p =>
      have := ih (acc ++ [p])
      simpa [List.append_assoc] using this

/-- C8: batch isolation of page failures. The collection loop visits every
page outcome: it equals `filterMap` of the outcomes, a failed page (a `none`
outcome) is simply skipped while the loop continues over the remaining
pages, and every page whose video creation succeeded contributes its path to
the batch result regardless of other pages' failures. -/
theorem page_failure_isolation (results : List (Option String)) :
    collect_videos results = results.filterMap id ∧
    (∀ pre post, collect_videos (pre ++ (none : Option String) :: post)
        = collect_videos pre ++ collect_videos post) ∧
    (∀ path, some path ∈ results → path ∈ collect_videos results) := by
  refine ⟨collect_videos_go results [], ?_, ?_⟩
  · intro pre post
    rw [show collect_videos (pre ++ (none : Option String) :: post)
        = (pre ++ (none : Option String) :: post).filterMap id from
      collect_videos_go _ []]
    rw [show collect_videos pre = pre.filterMap id from collect_videos_go _ []]
    rw [show collect_videos post = post.filterMap id from collect_videos_go _ []]
    simp
  · intro path hmem
    have h1 : collect_videos results = results.filterMap id := collect_videos_go results []
    rw [h1]
    simpa using List.mem_filterMap.mpr ⟨some path, hmem, rfl⟩

/-- Witness for C8: a failing first page does not keep the succeeding second
page out of the batch. -/
theorem page_failure_isolation_witness :
    sample_output_path ∈ collect_videos [none, some sample_output_path] :=
  (page_failure_isolation [none, some sample_output_path]).2.2 sample_output_path
    (by simp)

/-- An overlay image as produced by `PoemTok.create_text_overlay`: either the
styled text overlay built from OCR text, or the image-based fallback that
pastes the page image on a dark rectangle. -/
inductive Overlay where
  | styled (text : String)
  | image_based
deriving DecidableEq

/-- What the OCR call `pytesseract.image_to_string(page_image)` does on a
given page image: raise (any exception, caught by the surrounding `try`) or
return a string. -/
inductive OcrOutcome where
  | raises
  | extracted (text : String)
deriving DecidableEq

/-- Embeds the import-time detection (poemtok.py lines 35-41): the
module-level flag `HAS_PYTESSERACT` records once whether
`import pytesseract` succeeded; the ImportError is caught, never raised. -/
def has_pytesseract (import_succeeds : Bool) : Bool := import_succeeds

/-- Embeds `PoemTok.create_text_overlay` (poemtok.py lines 151-217): when the
OCR flag is set and OCR returns text that is truthy and nonblank after
stripping, the styled overlay is returned; when the flag is unset, or OCR
raises (the caught-exception path), or the text is blank, the image-based
fallback overlay is returned — never an error. -/
def create_text_overlay (flag : Bool) (ocr : OcrOutcome) : Overlay :=
  if flag then
    match ocr with
    | OcrOutcome.extracted text =>
        if text ≠ "" ∧ 0 < text.trim.length then Overlay.styled text
        else Overlay.image_based
    | OcrOutcome.raises => Overlay.image_based
  else Overlay.image_based

/-- C9: optional OCR dependency. With the import-time flag unset the overlay
builder takes the image-based path without raising; when OCR raises it falls
back to the image-based overlay; and in every case it returns an overlay
(styled or image-based) rather than propagating an error. -/
theorem ocr_optional_fallback (imported : Bool) (ocr : OcrOutcome) :
    create_text_overlay (has_pytesseract false) ocr = Overlay.image_based ∧
    create_text_overlay (has_pytesseract imported) OcrOutcome.raises
        = Overlay.image_based ∧
    (create_text_overlay (has_pytesseract imported) ocr = Overlay.image_based ∨
      ∃ text, create_text_overlay (has_pytesseract imported) ocr
          = Overlay.styled text) := by
  refine ⟨rfl, ?_, ?_⟩
  · cases imported <;> rfl
  · cases imported
    · left
      rfl
    · cases ocr with
      | raises =>
          left
          rfl
      | extracted text =>
          by_cases hc : text ≠ "" ∧ 0 < text.trim.length
          · right
            exact ⟨text, by simp [create_text_overlay, has_pytesseract, hc]⟩
          · left
            simp [create_text_overlay, has_pytesseract, hc]

end PoemTok
